import Mathlib

/-!
Shallow embedding of the VoiceTask core (text parser, recurrence engine,
recurrence set manager) and proofs of the specification claims.

The source represents instants as JavaScript `Date` values (an absolute
timestamp) and reads calendar fields (`getDay`, `getDate`, `getMonth`,
`getFullYear`) off them. The embedding models an instant as a civil
date-time record (proleptic Gregorian calendar, no time zone or DST, second
granularity; milliseconds are not modelled) together with a conversion
`toAbs` to absolute seconds used wherever the source compares `Date`s.
-/

namespace VoiceTask

/-- Gregorian leap-year test, as used by JavaScript Date arithmetic. -/
def isLeap (y : Nat) : Bool :=
  (y % 4 == 0 && y % 100 != 0) || y % 400 == 0

/-- Number of days in month `m` (JavaScript convention: 0 = January … 11 =
December) of year `y`. -/
def daysInMonth (y m : Nat) : Nat :=
  if m = 1 then (if isLeap y then 29 else 28)
  else if m = 3 ∨ m = 5 ∨ m = 8 ∨ m = 10 then 30
  else 31

/-- Number of days in year `y`. -/
def daysInYear (y : Nat) : Nat :=
  if isLeap y then 366 else 365

/-- Days in year `y` strictly before month `m` (0-based month). -/
def daysBeforeMonth (y : Nat) : Nat → Nat
  | 0 => 0
  | m + 1 => daysBeforeMonth y m + daysInMonth y m

/-- Days strictly before January 1 of year `y`, counted from year 0. -/
def daysBeforeYear : Nat → Nat
  | 0 => 0
  | y + 1 => daysBeforeYear y + daysInYear y

/-- Civil date-time: year, 0-based month, 1-based day, hour, minute, second.
This models a JavaScript `Date` at second granularity. -/
structure DateTime where
  year : Nat
  month : Nat
  day : Nat
  hour : Nat
  minute : Nat
  sec : Nat
deriving DecidableEq, Repr

/-- Day number of a civil date, counted from 0000-01-01 = day 0. -/
def dayNumber (dt : DateTime) : Nat :=
  daysBeforeYear dt.year + daysBeforeMonth dt.year dt.month + (dt.day - 1)

/-- Absolute time in seconds; the embedding of a timestamp comparison
between two JavaScript Dates is comparison of `toAbs`. -/
def toAbs (dt : DateTime) : Nat :=
  dayNumber dt * 86400 + dt.hour * 3600 + dt.minute * 60 + dt.sec

/-- Weekday with the JavaScript `getDay` convention (0 = Sunday … 6 =
Saturday). Day 0 (0000-01-01, proleptic Gregorian) is a Saturday. -/
def dayOfWeek (dt : DateTime) : Nat :=
  (dayNumber dt + 6) % 7

/-- Normalized civil date-times: exactly those records that arise from a
real timestamp. -/
def DateTime.Valid (dt : DateTime) : Prop :=
  dt.month < 12 ∧ 1 ≤ dt.day ∧ dt.day ≤ daysInMonth dt.year dt.month ∧
    dt.hour < 24 ∧ dt.minute < 60 ∧ dt.sec < 60

instance (dt : DateTime) : Decidable dt.Valid := by
  unfold DateTime.Valid; infer_instance

/-- Successor day of a civil date, keeping the time of day. -/
def addOneDay (dt : DateTime) : DateTime :=
  if dt.day + 1 ≤ daysInMonth dt.year dt.month then { dt with day := dt.day + 1 }
  else if dt.month < 11 then ⟨dt.year, dt.month + 1, 1, dt.hour, dt.minute, dt.sec⟩
  else ⟨dt.year + 1, 0, 1, dt.hour, dt.minute, dt.sec⟩

/-- Civil-date embedding of adding `n * 24h` to a timestamp (the model has
no DST, so adding days preserves the time of day). -/
def addDays (dt : DateTime) : Nat → DateTime
  | 0 => dt
  | n + 1 => addOneDay (addDays dt n)

theorem daysInMonth_pos (y m : Nat) : 1 ≤ daysInMonth y m := by
  unfold daysInMonth
  split
  · split <;> omega
  · split <;> omega

theorem daysBeforeMonth_twelve (y : Nat) : daysBeforeMonth y 12 = daysInYear y := by
  by_cases h : isLeap y
  all_goals
    simp only [daysBeforeMonth, daysInMonth, daysInYear, h]
    norm_num

theorem addOneDay_hour (dt : DateTime) : (addOneDay dt).hour = dt.hour := by
  unfold addOneDay; split
  · rfl
  · split <;> rfl

theorem addOneDay_minute (dt : DateTime) : (addOneDay dt).minute = dt.minute := by
  unfold addOneDay; split
  · rfl
  · split <;> rfl

theorem addOneDay_sec (dt : DateTime) : (addOneDay dt).sec = dt.sec := by
  unfold addOneDay; split
  · rfl
  · split <;> rfl

theorem addOneDay_valid {dt : DateTime} (h : dt.Valid) : (addOneDay dt).Valid := by
  obtain ⟨hm, hd1, hd2, hh, hmin, hs⟩ := h
  unfold addOneDay
  split
  · rename_i hfit
    exact ⟨hm, Nat.le_succ_of_le hd1, hfit, hh, hmin, hs⟩
  · split
    · rename_i hm11
      exact ⟨Nat.succ_lt_succ hm11, Nat.le_refl 1, daysInMonth_pos _ _, hh, hmin, hs⟩
    · exact ⟨Nat.zero_lt_succ 11, Nat.le_refl 1, daysInMonth_pos _ _, hh, hmin, hs⟩

theorem dayNumber_addOneDay {dt : DateTime} (h : dt.Valid) :
    dayNumber (addOneDay dt) = dayNumber dt + 1 := by
  obtain ⟨hm, hd1, hd2, _, _, _⟩ := h
  unfold addOneDay
  split
  · simp only [dayNumber]
    omega
  · rename_i hover
    split
    · rename_i hm11
      simp only [dayNumber]
      have hstep : daysBeforeMonth dt.year (dt.month + 1) =
          daysBeforeMonth dt.year dt.month + daysInMonth dt.year dt.month := rfl
      omega
    · rename_i hm11
      have hmeq : dt.month = 11 := by omega
      have hy : daysBeforeYear (dt.year + 1) = daysBeforeYear dt.year + daysInYear dt.year := rfl
      have h12 : daysBeforeMonth dt.year 12 = daysInYear dt.year := daysBeforeMonth_twelve dt.year
      have hstep : daysBeforeMonth dt.year 12 =
          daysBeforeMonth dt.year 11 + daysInMonth dt.year 11 := rfl
      have hb0 : daysBeforeMonth (dt.year + 1) 0 = 0 := rfl
      rw [hmeq] at hd2 hover
      simp only [dayNumber, hmeq]
      omega

theorem addDays_valid {dt : DateTime} (h : dt.Valid) (n : Nat) : (addDays dt n).Valid := by
  induction n with
  | zero => exact h
  | succ n ih => exact addOneDay_valid ih

theorem addDays_hour (dt : DateTime) (n : Nat) : (addDays dt n).hour = dt.hour := by
  induction n with
  | zero => rfl
  | succ n ih => rw [addDays, addOneDay_hour, ih]

theorem addDays_minute (dt : DateTime) (n : Nat) : (addDays dt n).minute = dt.minute := by
  induction n with
  | zero => rfl
  | succ n ih => rw [addDays, addOneDay_minute, ih]

theorem addDays_sec (dt : DateTime) (n : Nat) : (addDays dt n).sec = dt.sec := by
  induction n with
  | zero => rfl
  | succ n ih => rw [addDays, addOneDay_sec, ih]

theorem dayNumber_addDays {dt : DateTime} (h : dt.Valid) (n : Nat) :
    dayNumber (addDays dt n) = dayNumber dt + n := by
  induction n with
  | zero => rfl
  | succ n ih =>
    rw [addDays, dayNumber_addOneDay (addDays_valid h n), ih]
    omega

theorem toAbs_addDays {dt : DateTime} (h : dt.Valid) (n : Nat) :
    toAbs (addDays dt n) = toAbs dt + n * 86400 := by
  unfold toAbs
  rw [dayNumber_addDays h, addDays_hour, addDays_minute, addDays_sec]
  ring

theorem addDays_addDays (dt : DateTime) (a b : Nat) :
    addDays (addDays dt a) b = addDays dt (a + b) := by
  induction b with
  | zero => rfl
  | succ b ih => rw [addDays, ih]; rfl

theorem dayOfWeek_addDays {dt : DateTime} (h : dt.Valid) (n : Nat) :
    dayOfWeek (addDays dt (7 * n)) = dayOfWeek dt := by
  unfold dayOfWeek
  rw [dayNumber_addDays h]
  omega

/-- Day number of the first day of month index `M` (counting months
linearly: month `M` is month `M % 12` of year `M / 12`). This captures the
JavaScript constructor expression `new Date(y, m, 1, ...)`, whose month
argument may exceed 11 and is normalized. -/
def monthStartDay (M : Nat) : Nat :=
  daysBeforeYear (M / 12) + daysBeforeMonth (M / 12) (M % 12)

theorem monthStartDay_succ (M : Nat) :
    monthStartDay (M + 1) = monthStartDay M + daysInMonth (M / 12) (M % 12) := by
  unfold monthStartDay
  rcases Nat.lt_or_ge (M % 12) 11 with hr | hr
  · have hdiv : (M + 1) / 12 = M / 12 := by omega
    have hmod : (M + 1) % 12 = M % 12 + 1 := by omega
    rw [hdiv, hmod]
    have hstep : daysBeforeMonth (M / 12) (M % 12 + 1) =
        daysBeforeMonth (M / 12) (M % 12) + daysInMonth (M / 12) (M % 12) := rfl
    omega
  · have hr11 : M % 12 = 11 := by omega
    have hdiv : (M + 1) / 12 = M / 12 + 1 := by omega
    have hmod : (M + 1) % 12 = 0 := by omega
    rw [hdiv, hmod, hr11]
    have hy : daysBeforeYear (M / 12 + 1) =
        daysBeforeYear (M / 12) + daysInYear (M / 12) := rfl
    have h12 : daysBeforeMonth (M / 12) 12 = daysInYear (M / 12) :=
      daysBeforeMonth_twelve (M / 12)
    have hstep : daysBeforeMonth (M / 12) 12 =
        daysBeforeMonth (M / 12) 11 + daysInMonth (M / 12) 11 := rfl
    have hb0 : daysBeforeMonth (M / 12 + 1) 0 = 0 := rfl
    omega

theorem monthStartDay_mono {M N : Nat} (h : M ≤ N) : monthStartDay M ≤ monthStartDay N := by
  induction N with
  | zero =>
    have hM : M = 0 := by omega
    rw [hM]
  | succ n ih =>
    rcases Nat.lt_or_ge M (n + 1) with hlt | hge
    · have h1 := ih (by omega)
      have h2 := monthStartDay_succ n
      omega
    · have hM : M = n + 1 := by omega
      rw [hM]

theorem monthStartDay_of_valid {dt : DateTime} (h : dt.Valid) :
    monthStartDay (dt.year * 12 + dt.month) =
      daysBeforeYear dt.year + daysBeforeMonth dt.year dt.month := by
  obtain ⟨hm, _, _, _, _, _⟩ := h
  unfold monthStartDay
  have hdiv : (dt.year * 12 + dt.month) / 12 = dt.year := by omega
  have hmod : (dt.year * 12 + dt.month) % 12 = dt.month := by omega
  rw [hdiv, hmod]

/-- A cursor strictly inside month `(year, month)` is strictly before the
first day of the next linear month. -/
theorem dayNumber_lt_next_month {dt : DateTime} (h : dt.Valid) :
    dayNumber dt < monthStartDay (dt.year * 12 + dt.month + 1) := by
  have hsucc := monthStartDay_succ (dt.year * 12 + dt.month)
  have hof := monthStartDay_of_valid h
  obtain ⟨hm, hd1, hd2, _, _, _⟩ := h
  have hdiv : (dt.year * 12 + dt.month) / 12 = dt.year := by omega
  have hmod : (dt.year * 12 + dt.month) % 12 = dt.month := by omega
  rw [hdiv, hmod] at hsucc
  unfold dayNumber
  omega

/-- Recurrence frequency, mirroring the RecurrenceFrequency union type of
the source (daily, weekly, monthly, yearly, custom). -/
inductive Frequency where
  | daily
  | weekly
  | monthly
  | yearly
  | custom
deriving DecidableEq, Repr

/-- Embedding of the RecurrenceRule interface. Optional fields are Options;
the source stores endDate as an ISO string, embedded here directly as the
instant it denotes. -/
structure RecurrenceRule where
  frequency : Frequency
  interval : Nat
  daysOfWeek : Option (List Nat) := none
  dayOfMonth : Option Nat := none
  endDate : Option DateTime := none
  count : Option Nat := none
deriving DecidableEq, Repr

/-- Embedding of the Task record. The dateISO string is embedded as the
instant it denotes; absent optional fields are none. -/
structure Task where
  id : String
  title : String
  note : String
  dateISO : DateTime
  durationMin : Nat
  priority : String
  done : Bool
  notify : Bool
  recurrence : Option RecurrenceRule := none
  recurrenceId : Option String := none
  originalDate : Option DateTime := none
  category : Option String := none
  tags : List String := []
deriving DecidableEq, Repr

/-- JavaScript truthiness of the optional count field followed by the test
instanceCount >= count: the source line `if (count && instanceCount >=
count) break`. A missing count and a count of 0 are both falsy. -/
def countExhausted (count : Option Nat) (instanceCount : Nat) : Bool :=
  match count with
  | some c => c != 0 && c ≤ instanceCount
  | none => false

/-- Occurrence test of the generation loop: the shouldGenerate flag
computed for the current cursor date. -/
def shouldGenerate (rule : RecurrenceRule) (cursor : DateTime) : Bool :=
  match rule.frequency with
  | .daily => true
  | .weekly =>
    match rule.daysOfWeek with
    | some ds => ds.contains (dayOfWeek cursor)
    | none => false
  | .monthly =>
    match rule.dayOfMonth with
    | some dm => dm != 0 && cursor.day == dm
    | none => false
  | _ => false

/-- Source expression `baseTask.recurrenceId || baseTask.id` (JavaScript
or-else on a possibly absent or empty string). -/
def groupIdOf (baseTask : Task) : String :=
  match baseTask.recurrenceId with
  | some r => if r = "" then baseTask.id else r
  | none => baseTask.id

/-- Instance record pushed by the generation loop: a spread of the master
with fresh id, instance date, done cleared, group id, and originalDate.
All other fields (including the recurrence rule itself) are copied. -/
def mkInstance (baseTask : Task) (newId : String) (cursor : DateTime) : Task :=
  { baseTask with
    id := newId
    dateISO := cursor
    done := false
    recurrenceId := some (groupIdOf baseTask)
    originalDate := some cursor }

/-- Cursor advancement at the end of one loop iteration, for the three
recognized frequencies. The monthly arm models `new Date(fullYear, month +
interval, dayOfMonth || 1, hours, minutes)`: the possibly overflowing month
index is normalized and a day-of-month beyond day 1 is day addition. -/
def advanceCursor (rule : RecurrenceRule) (baseHour baseMinute : Nat)
    (cursor : DateTime) : DateTime :=
  match rule.frequency with
  | .daily => addDays cursor rule.interval
  | .weekly => addDays cursor (7 * rule.interval)
  | .monthly =>
    let M := cursor.year * 12 + cursor.month + rule.interval
    let dom := match rule.dayOfMonth with
      | some d => if d = 0 then 1 else d
      | none => 1
    addDays ⟨M / 12, M % 12, 1, baseHour, baseMinute, 0⟩ (dom - 1)
  | _ => cursor

/-- State of the generation loop of generateRecurrenceInstances. -/
structure GenState where
  cursor : DateTime
  acc : List Task
  instanceCount : Nat
deriving Repr

/-- One loop-body update of the accumulator and counter: push an instance
when the cursor qualifies and is not before the window start. -/
def pushGen (rule : RecurrenceRule) (baseTask : Task) (freshId : Nat → String)
    (startAbs : Nat) (st : GenState) : List Task × Nat :=
  if shouldGenerate rule st.cursor && decide (startAbs ≤ toAbs st.cursor) then
    (st.acc ++ [mkInstance baseTask (freshId st.instanceCount) st.cursor],
      st.instanceCount + 1)
  else (st.acc, st.instanceCount)

/-- One fuelled run of the while-loop of generateRecurrenceInstances.
The loop condition is checked before fuel is consumed; none means the fuel
ran out with the loop still running (the source loop diverges only for
interval = 0, see genLoop_isSome). `freshId k` stands for the uuid drawn
for the k-th pushed instance. -/
def genLoop (rule : RecurrenceRule) (baseTask : Task) (freshId : Nat → String)
    (startAbs endAbs finalAbs : Nat) : Nat → GenState → Option (List Task)
  | 0, st =>
    if toAbs st.cursor ≤ finalAbs ∧ toAbs st.cursor ≤ endAbs then none
    else some st.acc
  | fuel + 1, st =>
    if toAbs st.cursor ≤ finalAbs ∧ toAbs st.cursor ≤ endAbs then
      if countExhausted rule.count st.instanceCount then some st.acc
      else
        let p := pushGen rule baseTask freshId startAbs st
        match rule.frequency with
        | .daily | .weekly | .monthly =>
          genLoop rule baseTask freshId startAbs endAbs finalAbs fuel
            ⟨advanceCursor rule baseTask.dateISO.hour baseTask.dateISO.minute st.cursor,
              p.1, p.2⟩
        | _ => some p.1
    else some st.acc

/-- Embedding of generateRecurrenceInstances, as an Option: none would mean
the fuel bound was hit (shown impossible for interval ≥ 1). -/
def generateRecurrenceInstancesOpt (freshId : Nat → String) (baseTask : Task)
    (startDate endDate : DateTime) : Option (List Task) :=
  match baseTask.recurrence with
  | none => some []
  | some rule =>
    let cursor0 : DateTime :=
      { startDate with
        hour := baseTask.dateISO.hour, minute := baseTask.dateISO.minute, sec := 0 }
    let finalAbs := match rule.endDate with
      | some e => toAbs e
      | none => toAbs endDate
    let fuel := (min finalAbs (toAbs endDate) + 86400 - toAbs cursor0) / 86400 + 2
    genLoop rule baseTask freshId (toAbs startDate) (toAbs endDate) finalAbs fuel
      ⟨cursor0, [], 0⟩

/-- Embedding of generateRecurrenceInstances. For every input on which the
source loop terminates the fuel bound is sufficient and this equals the
source result; for baseTask without recurrence it is the source's early
return []. -/
def generateRecurrenceInstances (freshId : Nat → String) (baseTask : Task)
    (startDate endDate : DateTime) : List Task :=
  (generateRecurrenceInstancesOpt freshId baseTask startDate endDate).getD []

/-- Loop invariant on the cursor: normalized, and carrying the master's
time of day with zeroed seconds (as set by setHours and preserved by every
advancement step). -/
def CursorOk (baseHour baseMinute : Nat) (c : DateTime) : Prop :=
  c.Valid ∧ c.hour = baseHour ∧ c.minute = baseMinute ∧ c.sec = 0

theorem monthStartRecord_valid (M baseHour baseMinute : Nat) (hh : baseHour < 24)
    (hm : baseMinute < 60) :
    (⟨M / 12, M % 12, 1, baseHour, baseMinute, 0⟩ : DateTime).Valid := by
  refine ⟨?_, ?_, ?_, ?_, ?_, ?_⟩
  · show M % 12 < 12
    omega
  · show 1 ≤ 1
    omega
  · show 1 ≤ daysInMonth (M / 12) (M % 12)
    exact daysInMonth_pos _ _
  · exact hh
  · exact hm
  · show (0 : Nat) < 60
    omega

theorem monthStartRecord_toAbs (M baseHour baseMinute : Nat) :
    toAbs (⟨M / 12, M % 12, 1, baseHour, baseMinute, 0⟩ : DateTime) =
      monthStartDay M * 86400 + baseHour * 3600 + baseMinute * 60 := by
  show (daysBeforeYear (M / 12) + daysBeforeMonth (M / 12) (M % 12) + (1 - 1)) * 86400 +
      baseHour * 3600 + baseMinute * 60 + 0 =
    monthStartDay M * 86400 + baseHour * 3600 + baseMinute * 60
  unfold monthStartDay
  omega

theorem advanceCursor_ok {rule : RecurrenceRule} {baseHour baseMinute : Nat}
    {c : DateTime}
    (hfreq : rule.frequency = .daily ∨ rule.frequency = .weekly ∨
      rule.frequency = .monthly)
    (hint : 1 ≤ rule.interval) (hok : CursorOk baseHour baseMinute c)
    (hh : baseHour < 24) (hm : baseMinute < 60) :
    CursorOk baseHour baseMinute (advanceCursor rule baseHour baseMinute c) ∧
      toAbs c + 86400 ≤ toAbs (advanceCursor rule baseHour baseMinute c) := by
  obtain ⟨hv, hch, hcm, hcs⟩ := hok
  rcases hfreq with hf | hf | hf
  all_goals rw [advanceCursor, hf]
  · refine ⟨⟨addDays_valid hv _, ?_, ?_, ?_⟩, ?_⟩
    · rw [addDays_hour, hch]
    · rw [addDays_minute, hcm]
    · rw [addDays_sec, hcs]
    · rw [toAbs_addDays hv]
      have h1 : 1 * 86400 ≤ rule.interval * 86400 := Nat.mul_le_mul_right _ hint
      omega
  · refine ⟨⟨addDays_valid hv _, ?_, ?_, ?_⟩, ?_⟩
    · rw [addDays_hour, hch]
    · rw [addDays_minute, hcm]
    · rw [addDays_sec, hcs]
    · rw [toAbs_addDays hv]
      have h7 : 1 ≤ 7 * rule.interval := by omega
      have h1 : 1 * 86400 ≤ 7 * rule.interval * 86400 := Nat.mul_le_mul_right _ h7
      omega
  · show CursorOk baseHour baseMinute
        (addDays ⟨(c.year * 12 + c.month + rule.interval) / 12,
          (c.year * 12 + c.month + rule.interval) % 12, 1, baseHour, baseMinute, 0⟩
          ((match rule.dayOfMonth with
            | some d => if d = 0 then 1 else d
            | none => 1) - 1)) ∧
      toAbs c + 86400 ≤ toAbs
        (addDays ⟨(c.year * 12 + c.month + rule.interval) / 12,
          (c.year * 12 + c.month + rule.interval) % 12, 1, baseHour, baseMinute, 0⟩
          ((match rule.dayOfMonth with
            | some d => if d = 0 then 1 else d
            | none => 1) - 1))
    have hstartv := monthStartRecord_valid (c.year * 12 + c.month + rule.interval)
      baseHour baseMinute hh hm
    refine ⟨⟨addDays_valid hstartv _, ?_, ?_, ?_⟩, ?_⟩
    · rw [addDays_hour]
    · rw [addDays_minute]
    · rw [addDays_sec]
    · rw [toAbs_addDays hstartv, monthStartRecord_toAbs]
      have hlt : dayNumber c < monthStartDay (c.year * 12 + c.month + 1) :=
        dayNumber_lt_next_month hv
      have hmono : monthStartDay (c.year * 12 + c.month + 1) ≤
          monthStartDay (c.year * 12 + c.month + rule.interval) :=
        monthStartDay_mono (by omega)
      have hcabs : toAbs c =
          dayNumber c * 86400 + baseHour * 3600 + baseMinute * 60 := by
        unfold toAbs
        rw [hch, hcm, hcs]
        omega
      rw [hcabs]
      omega

/-- Sufficient fuel: with a positive interval the while-loop always exits,
because every advancement step moves the cursor at least one day forward.
This is the termination argument for the source loop. -/
theorem genLoop_isSome {rule : RecurrenceRule} {baseTask : Task}
    {freshId : Nat → String} {startAbs endAbs finalAbs : Nat}
    (hint : 1 ≤ rule.interval)
    (hh : baseTask.dateISO.hour < 24) (hm : baseTask.dateISO.minute < 60) :
    ∀ fuel st, CursorOk baseTask.dateISO.hour baseTask.dateISO.minute st.cursor →
      min finalAbs endAbs + 86400 ≤ toAbs st.cursor + fuel * 86400 →
      (genLoop rule baseTask freshId startAbs endAbs finalAbs fuel st).isSome := by
  intro fuel
  induction fuel with
  | zero =>
    intro st hok hfuel
    rw [genLoop]
    split
    · rename_i hcond
      exfalso
      omega
    · rfl
  | succ fuel ih =>
    intro st hok hfuel
    rw [genLoop]
    split
    · split
      · rfl
      · cases hfd : rule.frequency
        all_goals simp only [hfd]
        case yearly => rfl
        case custom => rfl
        all_goals
          apply ih
          · exact (advanceCursor_ok (by rw [hfd]; simp) hint hok hh hm).1
          · have hstep := (advanceCursor_ok (by rw [hfd]; simp) hint hok hh hm).2
            show min finalAbs endAbs + 86400 ≤
              toAbs (advanceCursor rule baseTask.dateISO.hour baseTask.dateISO.minute
                st.cursor) + fuel * 86400
            omega
    · rfl

theorem cursor0_ok {s : DateTime} (hs : s.Valid) {bh bm : Nat} (hh : bh < 24)
    (hm : bm < 60) : CursorOk bh bm { s with hour := bh, minute := bm, sec := 0 } := by
  obtain ⟨h1, h2, h3, _, _, _⟩ := hs
  exact ⟨⟨h1, h2, h3, hh, hm, Nat.succ_pos 59⟩, rfl, rfl, rfl⟩

theorem fuel_sufficient (a b : Nat) :
    a + 86400 ≤ b + ((a + 86400 - b) / 86400 + 2) * 86400 := by
  have h1 := Nat.div_add_mod (a + 86400 - b) 86400
  have h2 : (a + 86400 - b) % 86400 < 86400 := Nat.mod_lt _ (by omega)
  omega

/-- With a recurrence rule of positive interval and a real window-start
instant, the fuel chosen in generateRecurrenceInstancesOpt is sufficient:
the embedded loop yields a result, matching termination of the source
loop. -/
theorem generateOpt_isSome {freshId : Nat → String} {baseTask : Task}
    {startDate endDate : DateTime} {rule : RecurrenceRule}
    (hrule : baseTask.recurrence = some rule) (hint : 1 ≤ rule.interval)
    (hsv : startDate.Valid)
    (hh : baseTask.dateISO.hour < 24) (hm : baseTask.dateISO.minute < 60) :
    (generateRecurrenceInstancesOpt freshId baseTask startDate endDate).isSome := by
  unfold generateRecurrenceInstancesOpt
  rw [hrule]
  apply genLoop_isSome hint hh hm
  · exact cursor0_ok hsv hh hm
  · apply fuel_sufficient

theorem pushGen_no {rule : RecurrenceRule} {baseTask : Task} {freshId : Nat → String}
    {startAbs : Nat} {st : GenState}
    (h : shouldGenerate rule st.cursor = false ∨ toAbs st.cursor < startAbs) :
    pushGen rule baseTask freshId startAbs st = (st.acc, st.instanceCount) := by
  unfold pushGen
  rcases h with h | h
  · rw [h]
    simp
  · have hd : decide (startAbs ≤ toAbs st.cursor) = false := by
      simp only [decide_eq_false_iff_not]
      omega
    rw [hd]
    simp

theorem pushGen_yes {rule : RecurrenceRule} {baseTask : Task} {freshId : Nat → String}
    {startAbs : Nat} {st : GenState}
    (h1 : shouldGenerate rule st.cursor = true) (h2 : startAbs ≤ toAbs st.cursor) :
    pushGen rule baseTask freshId startAbs st =
      (st.acc ++ [mkInstance baseTask (freshId st.instanceCount) st.cursor],
        st.instanceCount + 1) := by
  unfold pushGen
  rw [h1]
  simp [h2]

theorem pushGen_cases (rule : RecurrenceRule) (baseTask : Task) (freshId : Nat → String)
    (startAbs : Nat) (st : GenState) :
    pushGen rule baseTask freshId startAbs st = (st.acc, st.instanceCount) ∨
      pushGen rule baseTask freshId startAbs st =
        (st.acc ++ [mkInstance baseTask (freshId st.instanceCount) st.cursor],
          st.instanceCount + 1) := by
  unfold pushGen
  split
  · right
    rfl
  · left
    rfl

/-- When no cursor inside the window can qualify for generation, the loop
only walks forward and returns its accumulator unchanged. -/
theorem genLoop_no_push {rule : RecurrenceRule} {baseTask : Task}
    {freshId : Nat → String} {startAbs endAbs finalAbs : Nat}
    (H : ∀ c : DateTime, toAbs c ≤ endAbs →
      shouldGenerate rule c = false ∨ toAbs c < startAbs) :
    ∀ fuel st r,
      genLoop rule baseTask freshId startAbs endAbs finalAbs fuel st = some r →
      r = st.acc := by
  intro fuel
  induction fuel with
  | zero =>
    intro st r h
    rw [genLoop] at h
    split at h
    · exact absurd h (by simp)
    · exact (Option.some_inj.mp h).symm
  | succ fuel ih =>
    intro st r h
    rw [genLoop] at h
    split at h
    · rename_i hcond
      split at h
      · exact (Option.some_inj.mp h).symm
      · have hp : pushGen rule baseTask freshId startAbs st =
            (st.acc, st.instanceCount) := pushGen_no (H st.cursor hcond.2)
        cases hfd : rule.frequency
        all_goals simp only [hfd] at h
        case yearly | custom =>
          rw [hp] at h
          exact (Option.some_inj.mp h).symm
        all_goals
          have hr := ih _ _ h
          rw [hp] at hr
          exact hr
    · exact (Option.some_inj.mp h).symm

theorem mem_pushGen_fst {rule : RecurrenceRule} {baseTask : Task}
    {freshId : Nat → String} {startAbs : Nat} {st : GenState} {inst : Task}
    (h : inst ∈ (pushGen rule baseTask freshId startAbs st).1) :
    inst ∈ st.acc ∨ inst = mkInstance baseTask (freshId st.instanceCount) st.cursor := by
  rcases pushGen_cases rule baseTask freshId startAbs st with hp | hp
  all_goals rw [hp] at h
  · exact Or.inl h
  · rcases List.mem_append.mp h with h1 | h1
    · exact Or.inl h1
    · exact Or.inr (List.mem_singleton.mp h1)

/-- Every element of a loop result is either carried over from the
accumulator or is an instance record pushed for some cursor. -/
theorem genLoop_mem {rule : RecurrenceRule} {baseTask : Task}
    {freshId : Nat → String} {startAbs endAbs finalAbs : Nat} :
    ∀ fuel st r,
      genLoop rule baseTask freshId startAbs endAbs finalAbs fuel st = some r →
      ∀ inst ∈ r, inst ∈ st.acc ∨
        ∃ k cur, inst = mkInstance baseTask (freshId k) cur := by
  intro fuel
  induction fuel with
  | zero =>
    intro st r h inst hin
    rw [genLoop] at h
    split at h
    · exact absurd h (by simp)
    · rw [← Option.some_inj.mp h] at hin
      exact Or.inl hin
  | succ fuel ih =>
    intro st r h inst hin
    rw [genLoop] at h
    split at h
    · split at h
      · rw [← Option.some_inj.mp h] at hin
        exact Or.inl hin
      · cases hfd : rule.frequency
        all_goals simp only [hfd] at h
        case yearly | custom =>
          rw [← Option.some_inj.mp h] at hin
          rcases mem_pushGen_fst hin with h1 | h1
          · exact Or.inl h1
          · exact Or.inr ⟨st.instanceCount, st.cursor, h1⟩
        all_goals
          rcases ih _ _ h inst hin with hold | hnew
          · rcases mem_pushGen_fst hold with h1 | h1
            · exact Or.inl h1
            · exact Or.inr ⟨st.instanceCount, st.cursor, h1⟩
          · exact Or.inr hnew
    · rw [← Option.some_inj.mp h] at hin
      exact Or.inl hin

/-- Count-budget invariant of one loop run: with a non-zero count the break
at the top of the loop body keeps the number of pushed instances at or
under the budget. The accumulator length always equals the consumed
budget. -/
theorem genLoop_count_le {rule : RecurrenceRule} {baseTask : Task}
    {freshId : Nat → String} {startAbs endAbs finalAbs : Nat} {cnt : Nat}
    (hc : rule.count = some cnt) (hc0 : cnt ≠ 0) :
    ∀ fuel st r, st.acc.length = st.instanceCount → st.instanceCount ≤ cnt →
      genLoop rule baseTask freshId startAbs endAbs finalAbs fuel st = some r →
      r.length ≤ cnt := by
  intro fuel
  induction fuel with
  | zero =>
    intro st r hlen hle h
    rw [genLoop] at h
    split at h
    · exact absurd h (by simp)
    · rw [← Option.some_inj.mp h, hlen]
      exact hle
  | succ fuel ih =>
    intro st r hlen hle h
    rw [genLoop] at h
    split at h
    · split at h
      · rw [← Option.some_inj.mp h, hlen]
        exact hle
      · rename_i hcx
        rw [hc] at hcx
        have hlt : st.instanceCount < cnt := by
          by_contra hge
          exact hcx (by simp [countExhausted, hc0]; omega)
        have hp12 : (pushGen rule baseTask freshId startAbs st).1.length =
            (pushGen rule baseTask freshId startAbs st).2 ∧
            (pushGen rule baseTask freshId startAbs st).2 ≤ cnt := by
          rcases pushGen_cases rule baseTask freshId startAbs st with hp | hp
          all_goals rw [hp]
          · exact ⟨hlen, hle⟩
          · constructor
            · show (st.acc ++
                  [mkInstance baseTask (freshId st.instanceCount) st.cursor]).length =
                st.instanceCount + 1
              rw [List.length_append, hlen]
              rfl
            · show st.instanceCount + 1 ≤ cnt
              omega
        cases hfd : rule.frequency
        all_goals simp only [hfd] at h
        case yearly | custom =>
          rw [← Option.some_inj.mp h]
          have h1 := hp12.1
          have h2 := hp12.2
          omega
        all_goals exact ih _ _ hp12.1 hp12.2 h
    · rw [← Option.some_inj.mp h, hlen]
      exact hle

/-- Exact characterization of a run for a daily rule with interval 1 and no
count limit, starting at or after the window start: one instance per day as
long as the cursor stays inside both end bounds. -/
theorem genLoop_daily_run {rule : RecurrenceRule} {baseTask : Task}
    {freshId : Nat → String} {startAbs endAbs finalAbs : Nat}
    (hf : rule.frequency = .daily) (hi : rule.interval = 1)
    (hcnt : rule.count = none) :
    ∀ n fuel st,
      CursorOk baseTask.dateISO.hour baseTask.dateISO.minute st.cursor →
      startAbs ≤ toAbs st.cursor →
      (∀ k, k < n → toAbs st.cursor + k * 86400 ≤ finalAbs ∧
        toAbs st.cursor + k * 86400 ≤ endAbs) →
      min finalAbs endAbs < toAbs st.cursor + n * 86400 →
      n + 1 ≤ fuel →
      genLoop rule baseTask freshId startAbs endAbs finalAbs fuel st =
        some (st.acc ++ (List.range n).map (fun k =>
          mkInstance baseTask (freshId (st.instanceCount + k)) (addDays st.cursor k))) := by
  intro n
  induction n with
  | zero =>
    intro fuel st hok hstart hbound hpast hfuel
    have hcond : ¬ (toAbs st.cursor ≤ finalAbs ∧ toAbs st.cursor ≤ endAbs) := by
      omega
    have hres : genLoop rule baseTask freshId startAbs endAbs finalAbs fuel st =
        some st.acc := by
      cases fuel with
      | zero => rw [genLoop, if_neg hcond]
      | succ f => rw [genLoop, if_neg hcond]
    rw [hres]
    simp
  | succ n ih =>
    intro fuel st hok hstart hbound hpast hfuel
    rcases fuel with _ | f
    · omega
    rw [genLoop]
    have hcond : toAbs st.cursor ≤ finalAbs ∧ toAbs st.cursor ≤ endAbs := by
      have hb := hbound 0 (by omega)
      omega
    rw [if_pos hcond]
    rw [if_neg (by rw [hcnt]; simp [countExhausted])]
    have hgen : shouldGenerate rule st.cursor = true := by
      rw [shouldGenerate, hf]
    rw [pushGen_yes hgen hstart]
    have hadv : advanceCursor rule baseTask.dateISO.hour baseTask.dateISO.minute
        st.cursor = addDays st.cursor 1 := by
      rw [advanceCursor, hf, hi]
    simp only [hf]
    show genLoop rule baseTask freshId startAbs endAbs finalAbs f
        ⟨advanceCursor rule baseTask.dateISO.hour baseTask.dateISO.minute st.cursor,
          st.acc ++ [mkInstance baseTask (freshId st.instanceCount) st.cursor],
          st.instanceCount + 1⟩ =
      some (st.acc ++ (List.range (n + 1)).map (fun k =>
        mkInstance baseTask (freshId (st.instanceCount + k)) (addDays st.cursor k)))
    rw [hadv]
    have hok1 : CursorOk baseTask.dateISO.hour baseTask.dateISO.minute
        (addDays st.cursor 1) := by
      obtain ⟨hv, hch, hcm, hcs⟩ := hok
      refine ⟨addDays_valid hv 1, ?_, ?_, ?_⟩
      · rw [addDays_hour, hch]
      · rw [addDays_minute, hcm]
      · rw [addDays_sec, hcs]
    have habs1 : toAbs (addDays st.cursor 1) = toAbs st.cursor + 86400 := by
      rw [toAbs_addDays hok.1]
    have hrec := ih f ⟨addDays st.cursor 1,
        st.acc ++ [mkInstance baseTask (freshId st.instanceCount) st.cursor],
        st.instanceCount + 1⟩ hok1 (by rw [habs1]; omega)
      (by
        intro k hk
        have hb := hbound (k + 1) (by omega)
        rw [habs1]
        constructor <;> omega)
      (by rw [habs1]; omega)
      (by omega)
    have hrec2 : genLoop rule baseTask freshId startAbs endAbs finalAbs f
        ⟨addDays st.cursor 1,
          st.acc ++ [mkInstance baseTask (freshId st.instanceCount) st.cursor],
          st.instanceCount + 1⟩ =
      some ((st.acc ++ [mkInstance baseTask (freshId st.instanceCount) st.cursor]) ++
        (List.range n).map (fun k => mkInstance baseTask
          (freshId (st.instanceCount + 1 + k)) (addDays (addDays st.cursor 1) k))) := hrec
    rw [hrec2]
    have hfe : (fun k => mkInstance baseTask (freshId (st.instanceCount + 1 + k))
        (addDays (addDays st.cursor 1) k)) =
      fun k => mkInstance baseTask (freshId (st.instanceCount + (k + 1)))
        (addDays st.cursor (k + 1)) := by
      funext k
      rw [addDays_addDays]
      have e1 : st.instanceCount + 1 + k = st.instanceCount + (k + 1) := by omega
      have e2 : 1 + k = k + 1 := by omega
      rw [e1, e2]
    rw [hfe, List.append_assoc, List.range_succ_eq_map, List.map_cons, List.map_map,
      List.singleton_append]
    rfl

/-- Exact characterization of a run for a weekly rule with interval 1 whose
cursor weekday always matches: with remaining budget m and enough window,
exactly m instances are produced at 7-day steps, after which the count
break fires. -/
theorem genLoop_weekly_count {rule : RecurrenceRule} {baseTask : Task}
    {freshId : Nat → String} {startAbs endAbs finalAbs : Nat} {ds : List Nat}
    {cnt : Nat}
    (hf : rule.frequency = .weekly) (hi : rule.interval = 1)
    (hds : rule.daysOfWeek = some ds) (hc : rule.count = some cnt) (hc0 : cnt ≠ 0) :
    ∀ m fuel st,
      CursorOk baseTask.dateISO.hour baseTask.dateISO.minute st.cursor →
      startAbs ≤ toAbs st.cursor →
      ds.contains (dayOfWeek st.cursor) = true →
      st.instanceCount + m = cnt →
      (∀ k, k < m → toAbs st.cursor + k * 604800 ≤ finalAbs ∧
        toAbs st.cursor + k * 604800 ≤ endAbs) →
      m + 1 ≤ fuel →
      genLoop rule baseTask freshId startAbs endAbs finalAbs fuel st =
        some (st.acc ++ (List.range m).map (fun k =>
          mkInstance baseTask (freshId (st.instanceCount + k))
            (addDays st.cursor (7 * k)))) := by
  intro m
  induction m with
  | zero =>
    intro fuel st hok hstart hdow hbudget hbound hfuel
    rcases fuel with _ | f
    · omega
    have hcx : countExhausted rule.count st.instanceCount = true := by
      rw [hc]
      simp [countExhausted, hc0]
      omega
    rw [genLoop]
    split
    · simp [hcx]
    · simp
  | succ m ih =>
    intro fuel st hok hstart hdow hbudget hbound hfuel
    rcases fuel with _ | f
    · omega
    rw [genLoop]
    have hcond : toAbs st.cursor ≤ finalAbs ∧ toAbs st.cursor ≤ endAbs := by
      have hb := hbound 0 (by omega)
      omega
    rw [if_pos hcond]
    have hcx : countExhausted rule.count st.instanceCount = false := by
      rw [hc]
      simp [countExhausted]
      omega
    rw [if_neg (by rw [hcx]; simp)]
    have hgen : shouldGenerate rule st.cursor = true := by
      rw [shouldGenerate, hf, hds]
      exact hdow
    rw [pushGen_yes hgen hstart]
    have hadv : advanceCursor rule baseTask.dateISO.hour baseTask.dateISO.minute
        st.cursor = addDays st.cursor 7 := by
      rw [advanceCursor, hf, hi]
    simp only [hf]
    show genLoop rule baseTask freshId startAbs endAbs finalAbs f
        ⟨advanceCursor rule baseTask.dateISO.hour baseTask.dateISO.minute st.cursor,
          st.acc ++ [mkInstance baseTask (freshId st.instanceCount) st.cursor],
          st.instanceCount + 1⟩ =
      some (st.acc ++ (List.range (m + 1)).map (fun k =>
        mkInstance baseTask (freshId (st.instanceCount + k)) (addDays st.cursor (7 * k))))
    have hok1 : CursorOk baseTask.dateISO.hour baseTask.dateISO.minute
        (addDays st.cursor 7) := by
      obtain ⟨hv, hch, hcm, hcs⟩ := hok
      refine ⟨addDays_valid hv 7, ?_, ?_, ?_⟩
      · rw [addDays_hour, hch]
      · rw [addDays_minute, hcm]
      · rw [addDays_sec, hcs]
    have habs7 : toAbs (addDays st.cursor 7) = toAbs st.cursor + 604800 := by
      rw [toAbs_addDays hok.1]
    have hdow7 : ds.contains (dayOfWeek (addDays st.cursor 7)) = true := by
      have hrot := dayOfWeek_addDays hok.1 1
      have h71 : (7 : Nat) * 1 = 7 := rfl
      rw [h71] at hrot
      rw [hrot]
      exact hdow
    have hrec := ih f
      ⟨advanceCursor rule baseTask.dateISO.hour baseTask.dateISO.minute st.cursor,
        st.acc ++ [mkInstance baseTask (freshId st.instanceCount) st.cursor],
        st.instanceCount + 1⟩
      (by
        show CursorOk baseTask.dateISO.hour baseTask.dateISO.minute
          (advanceCursor rule baseTask.dateISO.hour baseTask.dateISO.minute st.cursor)
        rw [hadv]
        exact hok1)
      (by
        show startAbs ≤ toAbs
          (advanceCursor rule baseTask.dateISO.hour baseTask.dateISO.minute st.cursor)
        rw [hadv, habs7]
        omega)
      (by
        show ds.contains (dayOfWeek
          (advanceCursor rule baseTask.dateISO.hour baseTask.dateISO.minute st.cursor)) =
          true
        rw [hadv]
        exact hdow7)
      (by show st.instanceCount + 1 + m = cnt; omega)
      (by
        show ∀ k, k < m → toAbs
            (advanceCursor rule baseTask.dateISO.hour baseTask.dateISO.minute st.cursor) +
            k * 604800 ≤ finalAbs ∧
          toAbs (advanceCursor rule baseTask.dateISO.hour baseTask.dateISO.minute
            st.cursor) + k * 604800 ≤ endAbs
        intro k hk
        have hb := hbound (k + 1) (by omega)
        rw [hadv, habs7]
        constructor <;> omega)
      (by omega)
    have hrec2 : genLoop rule baseTask freshId startAbs endAbs finalAbs f
        ⟨advanceCursor rule baseTask.dateISO.hour baseTask.dateISO.minute st.cursor,
          st.acc ++ [mkInstance baseTask (freshId st.instanceCount) st.cursor],
          st.instanceCount + 1⟩ =
      some ((st.acc ++ [mkInstance baseTask (freshId st.instanceCount) st.cursor]) ++
        (List.range m).map (fun k => mkInstance baseTask
          (freshId (st.instanceCount + 1 + k))
          (addDays (advanceCursor rule baseTask.dateISO.hour baseTask.dateISO.minute
            st.cursor) (7 * k)))) := hrec
    rw [hadv] at hrec2
    rw [hadv, hrec2]
    have hfe : (fun k => mkInstance baseTask (freshId (st.instanceCount + 1 + k))
        (addDays (addDays st.cursor 7) (7 * k))) =
      fun k => mkInstance baseTask (freshId (st.instanceCount + (k + 1)))
        (addDays st.cursor (7 * (k + 1))) := by
      funext k
      rw [addDays_addDays]
      have e1 : st.instanceCount + 1 + k = st.instanceCount + (k + 1) := by omega
      have e2 : 7 + 7 * k = 7 * (k + 1) := by omega
      rw [e1, e2]
    rw [hfe, List.append_assoc, List.range_succ_eq_map, List.map_cons, List.map_map,
      List.singleton_append]
    rfl

/-- Minute-truncated key of an instant: the tuple rendered by the source
format string "yyyy-MM-dd HH:mm". Two valid instants agree on this format
output exactly when they agree on this tuple. -/
def minuteKey (dt : DateTime) : Nat × Nat × Nat × Nat × Nat :=
  (dt.year, dt.month, dt.day, dt.hour, dt.minute)

/-- Dedup test of the Recurrence Set Manager: some persisted task shares
the candidate's recurrenceId and its minute-truncated instant. -/
def isDuplicateOf (tasks : List Task) (inst : Task) : Bool :=
  tasks.any fun t =>
    t.recurrenceId == inst.recurrenceId &&
      decide (minuteKey t.dateISO = minuteKey inst.dateISO)

/-- Embedding of one `masters.set` update of the source's Map keyed by
recurrenceId: replace in place when the incoming task is strictly older,
append a new key at the end (JavaScript Map preserves insertion order). -/
def upsertMaster (acc : List (String × Task)) (key : String) (t : Task) :
    List (String × Task) :=
  match acc with
  | [] => [(key, t)]
  | (k, e) :: rest =>
    if k = key then
      if toAbs t.dateISO < toAbs e.dateISO then (k, t) :: rest else (k, e) :: rest
    else (k, e) :: upsertMaster rest key t

/-- Embedding of getRecurrenceMasters: of the tasks carrying both a rule
and a non-empty recurrenceId, the oldest task per group, in first-insertion
order. -/
def getRecurrenceMasters (tasks : List Task) : List Task :=
  (tasks.foldl (fun acc t =>
    match t.recurrence, t.recurrenceId with
    | some _, some r => if r = "" then acc else upsertMaster acc r t
    | _, _ => acc) []).map Prod.snd

/-- Working state of expandRecurrenceTasks: the id set and the admitted new
instances. -/
structure ExpandState where
  existingIds : List String
  newInstances : List Task
deriving Repr

/-- Per-master admission pass of expandRecurrenceTasks: drop candidates
that duplicate a persisted task (by group and minute) or whose id is
already taken, append the rest. -/
def admitInstances (tasks : List Task) (st : ExpandState) (insts : List Task) :
    ExpandState :=
  insts.foldl (fun s inst =>
    if isDuplicateOf tasks inst || s.existingIds.contains inst.id then s
    else ⟨inst.id :: s.existingIds, s.newInstances ++ [inst]⟩) st

/-- Embedding of expandRecurrenceTasks. `supply i k` stands for the uuid
drawn for the k-th instance generated for the i-th master. -/
def expandRecurrenceTasks (supply : Nat → Nat → String) (tasks : List Task)
    (viewStart viewEnd : DateTime) : List Task :=
  let masters := getRecurrenceMasters tasks
  let final := masters.enum.foldl (fun s p =>
    admitInstances tasks s (generateRecurrenceInstances (supply p.1) p.2
      viewStart viewEnd)) ⟨tasks.map (fun t => t.id), []⟩
  tasks ++ final.newInstances

theorem mem_admitInstances {tasks : List Task} {inst : Task} :
    ∀ (insts : List Task) (st : ExpandState),
      inst ∈ (admitInstances tasks st insts).newInstances →
      inst ∈ st.newInstances ∨ isDuplicateOf tasks inst = false := by
  intro insts
  induction insts with
  | nil =>
    intro st h
    exact Or.inl h
  | cons a l ih =>
    intro st h
    have hstep : admitInstances tasks st (a :: l) =
        admitInstances tasks
          (if isDuplicateOf tasks a || st.existingIds.contains a.id then st
            else ⟨a.id :: st.existingIds, st.newInstances ++ [a]⟩) l := rfl
    rw [hstep] at h
    rcases ih _ h with h1 | h1
    · split at h1
      · exact Or.inl h1
      · rename_i hcondn
        rcases List.mem_append.mp h1 with h2 | h2
        · exact Or.inl h2
        · have ha : inst = a := List.mem_singleton.mp h2
          rw [ha]
          right
          cases hdp : isDuplicateOf tasks a with
          | false => rfl
          | true =>
            exfalso
            apply hcondn
            rw [hdp]
            rfl
    · exact Or.inr h1

theorem mem_expand_foldl {tasks : List Task} {gen : Nat × Task → List Task}
    {inst : Task} :
    ∀ (ms : List (Nat × Task)) (st : ExpandState),
      inst ∈ (ms.foldl (fun s p => admitInstances tasks s (gen p)) st).newInstances →
      inst ∈ st.newInstances ∨ isDuplicateOf tasks inst = false := by
  intro ms
  induction ms with
  | nil =>
    intro st h
    exact Or.inl h
  | cons p l ih =>
    intro st h
    rcases ih _ h with h1 | h1
    · exact mem_admitInstances _ _ h1
    · exact Or.inr h1

/-- Membership of the JavaScript regular-expression whitespace class (the
members that can occur in app input; the class has further exotic members
with identical treatment). -/
def jsSpace (c : Char) : Bool :=
  c == ' ' || c == '\t' || c == '\n' || c == '\r' || c == '\x0b' || c == '\x0c' ||
    c == ' ' || c == '　' || c == '﻿'

/-- parseInt on a run of ASCII digits. -/
def digitsToNat (l : List Char) : Nat :=
  l.foldl (fun a c => a * 10 + (c.toNat - 48)) 0

def isPrefixList : List Char → List Char → Bool
  | [], _ => true
  | _ :: _, [] => false
  | a :: as, b :: bs => a == b && isPrefixList as bs

/-- Substring test (JavaScript String.includes / regex literal test). -/
def containsSub (needle : List Char) : List Char → Bool
  | [] => needle.isEmpty
  | c :: rest => isPrefixList needle (c :: rest) || containsSub needle rest

def containsStr (s sub : String) : Bool :=
  containsSub sub.toList s.toList

/-- First match of the duration pattern: a digit run directly followed by
the minute marker or the hour marker (the regex `(\d+)(分|時間)` with
leftmost-match semantics; a failed digit run cannot match at any inner
position, so the scan resumes after it). Returns the parsed number and
whether the hour unit matched. -/
def firstDurMatch : List Char → Option (Nat × Bool)
  | [] => none
  | c :: rest =>
    if c.isDigit then
      match rest.dropWhile Char.isDigit with
      | '分' :: _ => some (digitsToNat (c :: rest.takeWhile Char.isDigit), false)
      | '時' :: '間' :: _ => some (digitsToNat (c :: rest.takeWhile Char.isDigit), true)
      | _ => firstDurMatch rest
    else firstDurMatch rest

/-- Category catalog entry. -/
structure Category where
  id : String
  name : String
  icon : String
deriving DecidableEq, Repr

/-- The fixed defaultCategories catalog (id, name, icon). -/
def defaultCategories : List Category :=
  [⟨"work", "仕事", "💼"⟩, ⟨"personal", "個人", "🏠"⟩, ⟨"health", "健康", "💪"⟩,
    ⟨"study", "勉強", "📚"⟩, ⟨"meeting", "会議", "🤝"⟩, ⟨"hobby", "趣味", "🎨"⟩]

/-- First catalog entry whose name or icon occurs in the text. -/
def detectCategory (text : String) : Option String :=
  (defaultCategories.find? fun cat =>
    containsStr text cat.name || containsStr text cat.icon).map Category.id

def isTagChar (c : Char) : Bool :=
  !jsSpace c && c != '#'

/-- Fuelled scan for tag matches; every step consumes at least one
character, so fuel equal to the remaining length never runs out (the zero
case is unreachable). -/
def extractTagsGo : Nat → List Char → List String
  | _, [] => []
  | 0, _ => []
  | fuel + 1, c :: rest =>
    if c = '#' then
      match rest.takeWhile isTagChar with
      | [] => extractTagsGo fuel rest
      | run => String.mk run :: extractTagsGo fuel (rest.dropWhile isTagChar)
    else extractTagsGo fuel rest

/-- All matches of the tag pattern (# followed by one or more non-space
non-# characters), hash stripped. -/
def extractTags (l : List Char) : List String :=
  extractTagsGo l.length l

def weekdayIndex (c : Char) : Option Nat :=
  if c = '日' then some 0
  else if c = '月' then some 1
  else if c = '火' then some 2
  else if c = '水' then some 3
  else if c = '木' then some 4
  else if c = '金' then some 5
  else if c = '土' then some 6
  else none

/-- Weekday captured by the first occurrence of the weekly-with-weekday
pattern. -/
def findWeeklyDay : List Char → Option Nat
  | '毎' :: '週' :: c :: rest =>
    match weekdayIndex c with
    | some d => some d
    | none => findWeeklyDay (c :: rest)
  | _ :: rest => findWeeklyDay rest
  | [] => none

/-- Day-of-month captured by the first occurrence of the monthly-with-day
pattern (one or two digits, greedy, then the day marker). -/
def findMonthlyDay : List Char → Option Nat
  | '毎' :: '月' :: rest =>
    (match rest with
      | d1 :: rest1 =>
        if d1.isDigit then
          match rest1 with
          | d2 :: rest2 =>
            if d2.isDigit then
              match rest2 with
              | '日' :: _ => some (digitsToNat [d1, d2])
              | _ => findMonthlyDay rest
            else if d2 = '日' then some (digitsToNat [d1])
            else findMonthlyDay rest
          | [] => findMonthlyDay rest
        else findMonthlyDay rest
      | [] => none)
  | _ :: rest => findMonthlyDay rest
  | [] => none

/-- Recurrence phrase detection, in source order of the if-else chain;
refDay is the day of month of the already-computed task date, the default
day for a bare monthly phrase. -/
def detectRecurrence (text : String) (refDay : Nat) : Option RecurrenceRule :=
  if containsStr text "毎日" then
    some ⟨.daily, 1, none, none, none, none⟩
  else if containsStr text "毎週" then
    match findWeeklyDay text.toList with
    | some d => some ⟨.weekly, 1, some [d], none, none, none⟩
    | none => some ⟨.weekly, 1, none, none, none, none⟩
  else if containsStr text "毎月" then
    match findMonthlyDay text.toList with
    | some d => some ⟨.monthly, 1, none, some d, none, none⟩
    | none => some ⟨.monthly, 1, none, some refDay, none, none⟩
  else if containsStr text "隔日" || containsStr text "一日おき" then
    some ⟨.daily, 2, none, none, none, none⟩
  else if containsStr text "隔週" then
    some ⟨.weekly, 2, none, none, none, none⟩
  else none

/-- Match of a literal alternative at the head of the text. -/
def matchLit (lit : List Char) (l : List Char) : Option Nat :=
  if isPrefixList lit l then some lit.length else none

/-- Match of the clock pattern (one or two digits, colon, two digits) at
the head. -/
def matchColonTime (l : List Char) : Option Nat :=
  match l with
  | d1 :: rest =>
    if d1.isDigit then
      match rest with
      | d2 :: ':' :: d3 :: d4 :: _ =>
        if d2.isDigit && d3.isDigit && d4.isDigit then some 5 else none
      | ':' :: d3 :: d4 :: _ =>
        if d3.isDigit && d4.isDigit then some 4 else none
      | _ => none
    else none
  | [] => none

/-- Match of a digit run directly followed by the minute marker. -/
def matchNumMinutes (l : List Char) : Option Nat :=
  match l with
  | c :: rest =>
    if c.isDigit then
      match rest.dropWhile Char.isDigit with
      | '分' :: _ => some ((c :: rest.takeWhile Char.isDigit).length + 1)
      | _ => none
    else none
  | [] => none

/-- Match of a digit run directly followed by the hour marker. -/
def matchNumHours (l : List Char) : Option Nat :=
  match l with
  | c :: rest =>
    if c.isDigit then
      match rest.dropWhile Char.isDigit with
      | '時' :: '間' :: _ => some ((c :: rest.takeWhile Char.isDigit).length + 2)
      | _ => none
    else none
  | [] => none

/-- First title-cleanup alternation: clock time, am/pm markers, durations
and the priority keywords, tried in source order. -/
def matchAltA (l : List Char) : Option Nat :=
  matchColonTime l <|> matchLit "午前".toList l <|> matchLit "午後".toList l <|>
    matchLit "AM".toList l <|> matchLit "PM".toList l <|> matchNumMinutes l <|>
    matchNumHours l <|> matchLit "重要".toList l <|> matchLit "至急".toList l <|>
    matchLit "最優先".toList l

def matchRecurKw (l : List Char) : Option Nat :=
  matchLit "毎日".toList l <|> matchLit "毎週".toList l <|> matchLit "毎月".toList l <|>
    matchLit "毎年".toList l <|> matchLit "隔日".toList l <|> matchLit "隔週".toList l <|>
    matchLit "一日おき".toList l

/-- Second title-cleanup alternation: a recurrence keyword with an optional
weekday character and an optional weekday suffix. -/
def matchAltB (l : List Char) : Option Nat :=
  match matchRecurKw l with
  | none => none
  | some n1 =>
    let l1 := l.drop n1
    let n2 := match l1 with
      | c :: _ => if (weekdayIndex c).isSome then 1 else 0
      | [] => 0
    let l2 := l1.drop n2
    let n3 := match l2 with
      | '曜' :: '日' :: _ => 2
      | '曜' :: _ => 1
      | _ => 0
    some (n1 + n2 + n3)

/-- Third title-cleanup pattern: the monthly keyword, one or two digits
(greedy) and the day marker. -/
def matchAltC (l : List Char) : Option Nat :=
  if isPrefixList "毎月".toList l then
    match l.drop 2 with
    | d1 :: rest1 =>
      if d1.isDigit then
        match rest1 with
        | d2 :: rest2 =>
          if d2.isDigit then
            match rest2 with
            | '日' :: _ => some 5
            | _ => none
          else if d2 = '日' then some 4
          else none
        | [] => none
      else none
    | [] => none
  else none

/-- Fourth title-cleanup pattern: a tag token. -/
def matchTag (l : List Char) : Option Nat :=
  match l with
  | '#' :: rest =>
    match rest.takeWhile isTagChar with
    | [] => none
    | run => some (run.length + 1)
  | _ => none

/-- Fuelled global-deletion scan; every step consumes at least one
character, so fuel equal to the remaining length never runs out (the zero
case is unreachable). -/
def stripAllGo (f : List Char → Option Nat) : Nat → List Char → List Char
  | _, [] => []
  | 0, l => l
  | fuel + 1, c :: rest =>
    match f (c :: rest) with
    | some (n + 1) => stripAllGo f fuel (rest.drop n)
    | _ => c :: stripAllGo f fuel rest

/-- Global regex replacement by the empty string: delete the match and
resume after it, or move one character forward. A matcher yields the match
length at the scan position (always at least 1). -/
def stripAll (f : List Char → Option Nat) (l : List Char) : List Char :=
  stripAllGo f l.length l

/-- Fuelled whitespace-collapsing scan; fuel equal to the remaining length
never runs out. -/
def collapseGo : Nat → List Char → List Char
  | _, [] => []
  | 0, l => l
  | fuel + 1, c :: rest =>
    if jsSpace c then ' ' :: collapseGo fuel (rest.dropWhile jsSpace)
    else c :: collapseGo fuel rest

/-- Global replacement of whitespace runs by a single space. -/
def collapseSpaces (l : List Char) : List Char :=
  collapseGo l.length l

/-- JavaScript String.trim: strip whitespace from both ends. -/
def trimChars (l : List Char) : List Char :=
  ((l.dropWhile jsSpace).reverse.dropWhile jsSpace).reverse

/-- Per-category removal of every occurrence of the category name and then
of the icon, in catalog order. -/
def stripCategories (l : List Char) : List Char :=
  defaultCategories.foldl (fun acc cat =>
    stripAll (matchLit cat.icon.toList) (stripAll (matchLit cat.name.toList) acc)) l

/-- Title-residue pipeline of parseVoiceTextToTask: the four deletion passes,
whitespace collapse and trim, category removal, and a final collapse and
trim. -/
def cleanTitle (text : String) : String :=
  let l1 := stripAll matchAltA text.toList
  let l2 := stripAll matchAltB l1
  let l3 := stripAll matchAltC l2
  let l4 := stripAll matchTag l3
  let l5 := trimChars (collapseSpaces l4)
  let l6 := stripCategories l5
  let l7 := trimChars (collapseSpaces l6)
  String.mk l7

/-- Title of the parsed task: the cleaned residue, or the placeholder when
the residue is empty. -/
def titleOf (text : String) : String :=
  if cleanTitle text = "" then "ボイスメモ" else cleanTitle text

/-- Embedding of parseVoiceTextToTask. External effects are inputs: newId
and groupId stand for the two uuid draws, and chronoHM stands for the
hour/minute extracted by the chrono library from the text (after its
`minute or 0` defaulting), none when no hour resolves. -/
def parseVoiceTextToTask (newId groupId : String) (chronoHM : Option (Nat × Nat))
    (text : String) (targetDate : DateTime) : Task :=
  let refDate : DateTime := match chronoHM with
    | some (h, m) => { targetDate with hour := h, minute := m, sec := 0 }
    | none => { targetDate with hour := 9, minute := 0, sec := 0 }
  let durationMin : Nat := match firstDurMatch text.toList with
    | some (n, isHours) => if isHours then n * 60 else n
    | none => 30
  let priority : String := if containsStr text "重要" || containsStr text "至急" ||
      containsStr text "最優先" then "high" else "normal"
  let recurrence := detectRecurrence text refDate.day
  { id := newId
    title := titleOf text
    note := text
    dateISO := refDate
    durationMin := durationMin
    priority := priority
    done := false
    notify := priority == "high"
    recurrence := recurrence
    recurrenceId := if recurrence.isSome then some groupId else none
    originalDate := none
    category := detectCategory text
    tags := extractTags text.toList }

theorem parse_durationMin (newId groupId : String) (chronoHM : Option (Nat × Nat))
    (text : String) (targetDate : DateTime) :
    (parseVoiceTextToTask newId groupId chronoHM text targetDate).durationMin =
      match firstDurMatch text.toList with
      | some (n, isHours) => if isHours then n * 60 else n
      | none => 30 := rfl

theorem parse_title (newId groupId : String) (chronoHM : Option (Nat × Nat))
    (text : String) (targetDate : DateTime) :
    (parseVoiceTextToTask newId groupId chronoHM text targetDate).title =
      titleOf text := by
  dsimp only [parseVoiceTextToTask]

/-- Concrete fixtures for witnesses and counterexamples: year-0 January
dates keep kernel evaluation cheap; the calendar model is proleptic. -/
def dMid (d : Nat) : DateTime := ⟨0, 0, d, 0, 0, 0⟩

def dEnd (d : Nat) : DateTime := ⟨0, 0, d, 23, 59, 59⟩

def at9 (d : Nat) : DateTime := ⟨0, 0, d, 9, 0, 0⟩

/-- Concrete master-task fixture. -/
def mkMaster (r : Option RecurrenceRule) (dt : DateTime) : Task :=
  { id := "m", title := "t", note := "n", dateISO := dt, durationMin := 30,
    priority := "normal", done := false, notify := false, recurrence := r,
    recurrenceId := some "g", originalDate := none, category := none, tags := [] }

def supA (i k : Nat) : String := "a" ++ toString i ++ "x" ++ toString k

def supB (i k : Nat) : String := "b" ++ toString i ++ "x" ++ toString k

def supU (k : Nat) : String := "u" ++ toString k

/-- C9 — the Recurrence Set Manager returns the input collection as an
unchanged prefix, followed only by the newly admitted virtual instances. -/
theorem claim_C9_frame (supply : Nat → Nat → String) (tasks : List Task)
    (viewStart viewEnd : DateTime) :
    ∃ freshInstances : List Task,
      expandRecurrenceTasks supply tasks viewStart viewEnd =
        tasks ++ freshInstances :=
  ⟨_, rfl⟩

/-- C10 — for every rule with interval at least 1, the generation loop
terminates: the fuelled embedding of the while-loop reaches its exit within
the chosen fuel (each daily, weekly or monthly step strictly advances the
cursor; unrecognized frequencies break out at once). -/
theorem claim_C10_termination {freshId : Nat → String} {baseTask : Task}
    {startDate endDate : DateTime} {rule : RecurrenceRule}
    (hrule : baseTask.recurrence = some rule) (hint : 1 ≤ rule.interval)
    (hsv : startDate.Valid)
    (hbh : baseTask.dateISO.hour < 24) (hbm : baseTask.dateISO.minute < 60) :
    (generateRecurrenceInstancesOpt freshId baseTask startDate endDate).isSome = true :=
  generateOpt_isSome hrule hint hsv hbh hbm

theorem claim_C10_termination_witness :
    (generateRecurrenceInstancesOpt supU
      (mkMaster (some ⟨.monthly, 1, none, some 15, none, none⟩) (at9 1))
      (dMid 1) (dEnd 60)).isSome = true :=
  claim_C10_termination rfl (by decide) (by decide) (by decide) (by decide)

/-- C6 — the engine never raises and degrades to the empty list in the
degenerate cases: a weekly rule with no daysOfWeek, an unrecognized
frequency (yearly or custom), and a window with start after end. Stated
for positive intervals, the regime in which the source loop terminates at
all. -/
theorem claim_C6_degenerate {freshId : Nat → String} {baseTask : Task}
    {startDate endDate : DateTime} {rule : RecurrenceRule}
    (hrule : baseTask.recurrence = some rule) (hint : 1 ≤ rule.interval)
    (hsv : startDate.Valid)
    (hbh : baseTask.dateISO.hour < 24) (hbm : baseTask.dateISO.minute < 60)
    (hdeg : (rule.frequency = .weekly ∧ rule.daysOfWeek = none) ∨
      rule.frequency = .yearly ∨ rule.frequency = .custom ∨
      toAbs endDate < toAbs startDate) :
    generateRecurrenceInstances freshId baseTask startDate endDate = [] := by
  have hsome := @generateOpt_isSome freshId baseTask startDate endDate rule
    hrule hint hsv hbh hbm
  rcases ho : generateRecurrenceInstancesOpt freshId baseTask startDate endDate
    with _ | r
  · rw [ho] at hsome
    simp at hsome
  · have hH : ∀ c : DateTime, toAbs c ≤ toAbs endDate →
        shouldGenerate rule c = false ∨ toAbs c < toAbs startDate := by
      intro c hc
      rcases hdeg with ⟨hw, hnone⟩ | hy | hcu | hrev
      · left
        rw [shouldGenerate, hw, hnone]
      · left
        rw [shouldGenerate, hy]
      · left
        rw [shouldGenerate, hcu]
      · right
        omega
    have hr : r = [] := by
      unfold generateRecurrenceInstancesOpt at ho
      rw [hrule] at ho
      exact genLoop_no_push hH _ _ _ ho
    unfold generateRecurrenceInstances
    rw [ho, hr]
    rfl

theorem claim_C6_degenerate_witness :
    generateRecurrenceInstances supU
      (mkMaster (some ⟨.weekly, 1, none, none, none, none⟩) (at9 1))
      (dMid 1) (dEnd 70) = [] :=
  claim_C6_degenerate rfl (by decide) (by decide) (by decide) (by decide)
    (Or.inl ⟨rfl, rfl⟩)

/-- C1 counterexample — a daily rule with count = 3, expanded over a first
week and then over the following week (fresh uuids per invocation, as uuid
generation guarantees), materializes five instances of the series in the
final collection: the count budget restarts on each engine invocation, so
the series total exceeds 3. -/
theorem claim_C1_counterexample :
    3 < (expandRecurrenceTasks supB
      (expandRecurrenceTasks supA
        [mkMaster (some ⟨.daily, 1, none, none, none, some 3⟩) (at9 1)]
        (dMid 1) (dEnd 7))
      (dMid 8) (dEnd 14)).countP
        (fun t => t.recurrenceId == some "g" && t.originalDate.isSome) := by
  decide

/-- C1 amended — the count budget is a per-invocation allowance: one call
of the Recurrence Engine with count = N (N at least 1) generates at most N
instances, but successive invocations over different windows each get a
fresh budget and the series total may exceed N. -/
theorem claim_C1_amended {freshId : Nat → String} {baseTask : Task}
    {startDate endDate : DateTime} {rule : RecurrenceRule} {c : Nat}
    (hrule : baseTask.recurrence = some rule) (hcount : rule.count = some c)
    (hc1 : 1 ≤ c) :
    (generateRecurrenceInstances freshId baseTask startDate endDate).length ≤ c := by
  have hgen : ∀ o : Option (List Task),
      (∀ r, o = some r → r.length ≤ c) → (o.getD []).length ≤ c := by
    intro o ho
    cases o with
    | none => simp
    | some r => exact ho r rfl
  unfold generateRecurrenceInstances generateRecurrenceInstancesOpt
  rw [hrule]
  apply hgen
  intro r hr
  exact genLoop_count_le hcount (by omega) _ _ _ rfl (Nat.zero_le c) hr

theorem claim_C1_amended_witness :
    (generateRecurrenceInstances supU
      (mkMaster (some ⟨.daily, 1, none, none, none, some 3⟩) (at9 1))
      (dMid 1) (dEnd 7)).length ≤ 3 :=
  claim_C1_amended rfl rfl (by omega)

/-- C3 counterexample — the recurrence field is not omitted on generated
instances: the spread copies the master's rule onto every instance, so the
first instance of a concrete daily series carries the rule. -/
theorem claim_C3_counterexample :
    ((generateRecurrenceInstances supU
      (mkMaster (some ⟨.daily, 1, none, none, none, some 3⟩) (at9 1))
      (dMid 1) (dEnd 7)).head?).map Task.recurrence =
      some (some ⟨.daily, 1, none, none, none, some 3⟩) := by
  decide

/-- C3 amended — every generated instance has done = false, the master's
recurrence-group identifier, originalDate equal to its own occurrence
instant, and an id distinct from the master's (granted uuid freshness);
however the recurrence field is copied from the master onto the instance
rather than omitted. -/
theorem claim_C3_amended {freshId : Nat → String} {baseTask : Task}
    {startDate endDate : DateTime} {g : String} {inst : Task}
    (hgid : baseTask.recurrenceId = some g) (hg : g ≠ "")
    (hfresh : ∀ k, freshId k ≠ baseTask.id)
    (hmem : inst ∈ generateRecurrenceInstances freshId baseTask startDate endDate) :
    inst.done = false ∧ inst.recurrenceId = some g ∧
      inst.originalDate = some inst.dateISO ∧
      inst.recurrence = baseTask.recurrence ∧ inst.id ≠ baseTask.id := by
  unfold generateRecurrenceInstances at hmem
  rcases ho : generateRecurrenceInstancesOpt freshId baseTask startDate endDate
    with _ | r
  · rw [ho] at hmem
    simp at hmem
  · rw [ho] at hmem
    unfold generateRecurrenceInstancesOpt at ho
    rcases hrec : baseTask.recurrence with _ | rule
    · rw [hrec] at ho
      have hre : r = [] := by
        have : some ([] : List Task) = some r := ho
        exact (Option.some_inj.mp this).symm
      rw [hre] at hmem
      simp at hmem
    · rw [hrec] at ho
      rcases genLoop_mem _ _ _ ho inst hmem with hnil | ⟨k, cur, heq⟩
      · simp at hnil
      · have hgrp : groupIdOf baseTask = g := by
          unfold groupIdOf
          rw [hgid]
          show (if g = "" then baseTask.id else g) = g
          rw [if_neg hg]
        rw [heq]
        refine ⟨rfl, ?_, rfl, ?_, ?_⟩
        · show some (groupIdOf baseTask) = some g
          rw [hgrp]
        · exact hrec
        · show freshId k ≠ baseTask.id
          exact hfresh k

theorem claim_C3_amended_witness :
    (mkInstance (mkMaster (some ⟨.daily, 1, none, none, none, some 3⟩) (at9 1))
        "u" (at9 1)).done = false ∧
    (mkInstance (mkMaster (some ⟨.daily, 1, none, none, none, some 3⟩) (at9 1))
        "u" (at9 1)).recurrenceId = some "g" ∧
    (mkInstance (mkMaster (some ⟨.daily, 1, none, none, none, some 3⟩) (at9 1))
        "u" (at9 1)).originalDate =
      some (mkInstance (mkMaster (some ⟨.daily, 1, none, none, none, some 3⟩)
        (at9 1)) "u" (at9 1)).dateISO ∧
    (mkInstance (mkMaster (some ⟨.daily, 1, none, none, none, some 3⟩) (at9 1))
        "u" (at9 1)).recurrence =
      (mkMaster (some ⟨.daily, 1, none, none, none, some 3⟩) (at9 1)).recurrence ∧
    (mkInstance (mkMaster (some ⟨.daily, 1, none, none, none, some 3⟩) (at9 1))
        "u" (at9 1)).id ≠
      (mkMaster (some ⟨.daily, 1, none, none, none, some 3⟩) (at9 1)).id :=
  @claim_C3_amended (fun _ => "u")
    (mkMaster (some ⟨.daily, 1, none, none, none, some 3⟩) (at9 1))
    (dMid 1) (dEnd 7) "g"
    (mkInstance (mkMaster (some ⟨.daily, 1, none, none, none, some 3⟩) (at9 1))
      "u" (at9 1))
    rfl (by decide)
    (fun _ => (by decide : ("u" : String) ≠ "m")) (by decide)

/-- C4 counterexample — the parsed duration is not always strictly
positive: the duration regex accepts a zero quantity, so the text 0分
yields durationMin = 0. -/
theorem claim_C4_counterexample :
    (parseVoiceTextToTask "i" "g" none "0分テスト" (dMid 1)).durationMin = 0 := by
  decide

/-- C4 amended — the parsed duration is 30 when no duration phrase is
present, and otherwise the phrase's value (hours converted to minutes); it
is strictly positive whenever the first duration phrase's number is
non-zero, but a phrase like 0分 yields 0. -/
theorem claim_C4_amended (newId groupId : String) (chronoHM : Option (Nat × Nat))
    (text : String) (targetDate : DateTime)
    (hpos : ∀ n isHours, firstDurMatch text.toList = some (n, isHours) → 1 ≤ n) :
    1 ≤ (parseVoiceTextToTask newId groupId chronoHM text targetDate).durationMin ∧
      (firstDurMatch text.toList = none →
        (parseVoiceTextToTask newId groupId chronoHM text targetDate).durationMin
          = 30) := by
  rw [parse_durationMin]
  rcases hfd : firstDurMatch text.toList with _ | ⟨n, isHours⟩
  · constructor
    · show (1 : Nat) ≤ 30
      omega
    · intro _
      rfl
  · constructor
    · have hn := hpos n isHours hfd
      cases isHours with
      | false =>
        show 1 ≤ n
        exact hn
      | true =>
        show 1 ≤ n * 60
        omega
    · intro hnone
      exact absurd hnone (by simp)

theorem claim_C4_amended_witness :
    1 ≤ (parseVoiceTextToTask "i" "g" none "45分散歩" (dMid 1)).durationMin ∧
      (firstDurMatch ("45分散歩" : String).toList = none →
        (parseVoiceTextToTask "i" "g" none "45分散歩" (dMid 1)).durationMin = 30) :=
  claim_C4_amended "i" "g" none "45分散歩" (dMid 1)
    (by
      intro n isHours h
      rw [show firstDurMatch ("45分散歩" : String).toList = some (45, false) from rfl]
        at h
      have hp := Option.some_inj.mp h
      have hn : (45 : Nat) = n := congrArg Prod.fst hp
      omega)

/-- C8 — the parser is total and its title is never empty: whenever the
stripped residual text is empty the generic placeholder is substituted,
otherwise the non-empty residual is the title. -/
theorem claim_C8_title (newId groupId : String) (chronoHM : Option (Nat × Nat))
    (text : String) (targetDate : DateTime) :
    (parseVoiceTextToTask newId groupId chronoHM text targetDate).title ≠ "" ∧
      (cleanTitle text = "" →
        (parseVoiceTextToTask newId groupId chronoHM text targetDate).title
          = "ボイスメモ") := by
  rw [parse_title]
  unfold titleOf
  by_cases h : cleanTitle text = ""
  · rw [if_pos h]
    exact ⟨by decide, fun _ => rfl⟩
  · rw [if_neg h]
    exact ⟨h, fun hc => absurd hc h⟩

theorem claim_C8_title_witness :
    (parseVoiceTextToTask "i" "g" none "重要" (dMid 1)).title = "ボイスメモ" :=
  (claim_C8_title "i" "g" none "重要" (dMid 1)).2 (by decide)

/-- Count preservation under expansion, for a predicate that only holds on
tasks whose group-and-minute instant is already persisted: no admitted
instance satisfies it, so the output count equals the input count. -/
theorem countP_expandRecurrenceTasks (supply : Nat → Nat → String)
    (tasks : List Task) (viewStart viewEnd : DateTime) (p : Task → Bool)
    (hp : ∀ inst, isDuplicateOf tasks inst = false → p inst = false) :
    (expandRecurrenceTasks supply tasks viewStart viewEnd).countP p =
      tasks.countP p := by
  show List.countP p (tasks ++
    ((getRecurrenceMasters tasks).enum.foldl (fun s q =>
      admitInstances tasks s (generateRecurrenceInstances (supply q.1) q.2
        viewStart viewEnd)) ⟨tasks.map (fun t => t.id), []⟩).newInstances) =
    List.countP p tasks
  rw [List.countP_append]
  have hzero : (((getRecurrenceMasters tasks).enum.foldl (fun s q =>
      admitInstances tasks s (generateRecurrenceInstances (supply q.1) q.2
        viewStart viewEnd)) ⟨tasks.map (fun t => t.id), []⟩).newInstances).countP p
      = 0 := by
    rw [List.countP_eq_zero]
    intro inst hins
    rcases mem_expand_foldl _ _ hins with h1 | h1
    · simp at h1
    · rw [hp inst h1]
      simp
  rw [hzero]
  omega

/-- Dedup predicate of one recurrence group and one minute-truncated
instant. -/
def matchesGroupMinute (g : String) (k : Nat × Nat × Nat × Nat × Nat)
    (t : Task) : Bool :=
  t.recurrenceId == some g && decide (minuteKey t.dateISO = k)

/-- C7 — when a persisted task already carries a candidate's group id and
minute-truncated instant, the Recurrence Set Manager drops that candidate:
the output contains tasks at that group-and-minute exactly as often as the
input does (in particular exactly once when persisted once). -/
theorem claim_C7_dedup (supply : Nat → Nat → String) (tasks : List Task)
    (viewStart viewEnd : DateTime) (g : String)
    (k : Nat × Nat × Nat × Nat × Nat)
    (hexists : 0 < tasks.countP (matchesGroupMinute g k)) :
    (expandRecurrenceTasks supply tasks viewStart viewEnd).countP
      (matchesGroupMinute g k) = tasks.countP (matchesGroupMinute g k) := by
  obtain ⟨t0, ht0mem, ht0⟩ := List.countP_pos_iff.mp hexists
  apply countP_expandRecurrenceTasks
  intro inst hdup
  cases hmatch : matchesGroupMinute g k inst with
  | false => rfl
  | true =>
    exfalso
    unfold matchesGroupMinute at hmatch ht0
    simp only [Bool.and_eq_true] at hmatch ht0
    obtain ⟨hbeq, hkey⟩ := hmatch
    obtain ⟨hbeq0, hkey0⟩ := ht0
    have hrid : inst.recurrenceId = some g := eq_of_beq hbeq
    have hmin : minuteKey inst.dateISO = k := of_decide_eq_true hkey
    have hrid0 : t0.recurrenceId = some g := eq_of_beq hbeq0
    have hmin0 : minuteKey t0.dateISO = k := of_decide_eq_true hkey0
    have hdup' : isDuplicateOf tasks inst = true := by
      unfold isDuplicateOf
      rw [List.any_eq_true]
      refine ⟨t0, ht0mem, ?_⟩
      rw [Bool.and_eq_true]
      constructor
      · rw [hrid0, hrid]
        exact beq_self_eq_true _
      · rw [hmin0, hmin]
        exact decide_eq_true rfl
    rw [hdup'] at hdup
    exact Bool.true_eq_false.mp hdup

/-- Concrete dedup fixture: a persisted instance on day 3 at the minute
the engine would regenerate. -/
def c7Persisted : Task :=
  { id := "p", title := "t", note := "n", dateISO := at9 3, durationMin := 30,
    priority := "normal", done := true, notify := false, recurrence := none,
    recurrenceId := some "g", originalDate := some (at9 3), category := none,
    tags := [] }

theorem claim_C7_dedup_witness :
    (expandRecurrenceTasks supA
      [mkMaster (some ⟨.daily, 1, none, none, none, none⟩) (at9 1), c7Persisted]
      (dMid 1) (dEnd 7)).countP (matchesGroupMinute "g" (0, 0, 3, 9, 0)) = 1 := by
  have h := claim_C7_dedup supA
    [mkMaster (some ⟨.daily, 1, none, none, none, none⟩) (at9 1), c7Persisted]
    (dMid 1) (dEnd 7) "g" (0, 0, 3, 9, 0) (by decide)
  rw [h]
  decide

theorem toAbs_update (X : DateTime) (h m s : Nat) :
    toAbs { X with hour := h, minute := m, sec := s } =
      dayNumber X * 86400 + h * 3600 + m * 60 + s := rfl

theorem mkInstance_dateISO (b : Task) (i : String) (c : DateTime) :
    (mkInstance b i c).dateISO = c := rfl

set_option maxHeartbeats 1600000 in
/-- C5 — a daily rule with interval 1 and no end bound, expanded over the
calendar week starting at day D, yields exactly seven instances, one per
day at the master's time of day, strictly increasing with no duplicates. -/
theorem claim_C5_daily_week {freshId : Nat → String} {baseTask : Task}
    {D wEnd c0 : DateTime}
    (hrule : baseTask.recurrence = some ⟨.daily, 1, none, none, none, none⟩)
    (hD : D.Valid) (hDh : D.hour = 0) (hDm : D.minute = 0) (hDs : D.sec = 0)
    (hbh : baseTask.dateISO.hour < 24) (hbm : baseTask.dateISO.minute < 60)
    (hwEnd : wEnd = { addDays D 6 with hour := 23, minute := 59, sec := 59 })
    (hc0 : c0 =
      { D with
          hour := baseTask.dateISO.hour
          minute := baseTask.dateISO.minute
          sec := 0 }) :
    (generateRecurrenceInstances freshId baseTask D wEnd).map Task.dateISO =
      (List.range 7).map (fun k => addDays c0 k) ∧
    (generateRecurrenceInstances freshId baseTask D wEnd).length = 7 ∧
    List.Pairwise (fun a b => toAbs a.dateISO < toAbs b.dateISO)
      (generateRecurrenceInstances freshId baseTask D wEnd) ∧
    ∀ inst ∈ generateRecurrenceInstances freshId baseTask D wEnd,
      inst.dateISO.hour = baseTask.dateISO.hour ∧
      inst.dateISO.minute = baseTask.dateISO.minute := by
  have hc0ok : CursorOk baseTask.dateISO.hour baseTask.dateISO.minute c0 := by
    rw [hc0]
    exact cursor0_ok hD hbh hbm
  have hc0v := hc0ok.1
  have habsD : toAbs D = dayNumber D * 86400 := by
    unfold toAbs
    rw [hDh, hDm, hDs]
    omega
  have habsc0 : toAbs c0 =
      dayNumber D * 86400 + baseTask.dateISO.hour * 3600 +
        baseTask.dateISO.minute * 60 := by
    rw [hc0, toAbs_update]
    omega
  have habswE : toAbs wEnd = (dayNumber D + 6) * 86400 + 86399 := by
    have h1 : toAbs wEnd =
        dayNumber (addDays D 6) * 86400 + 23 * 3600 + 59 * 60 + 59 := by
      rw [hwEnd]
      exact toAbs_update (addDays D 6) 23 59 59
    have h2 := dayNumber_addDays hD 6
    omega
  have hinday : baseTask.dateISO.hour * 3600 + baseTask.dateISO.minute * 60 ≤
      86340 := by
    have h1 : baseTask.dateISO.hour * 3600 ≤ 23 * 3600 :=
      Nat.mul_le_mul_right _ (by omega)
    have h2 : baseTask.dateISO.minute * 60 ≤ 59 * 60 :=
      Nat.mul_le_mul_right _ (by omega)
    omega
  have hgen : generateRecurrenceInstances freshId baseTask D wEnd =
      [mkInstance baseTask (freshId 0) (addDays c0 0),
        mkInstance baseTask (freshId 1) (addDays c0 1),
        mkInstance baseTask (freshId 2) (addDays c0 2),
        mkInstance baseTask (freshId 3) (addDays c0 3),
        mkInstance baseTask (freshId 4) (addDays c0 4),
        mkInstance baseTask (freshId 5) (addDays c0 5),
        mkInstance baseTask (freshId 6) (addDays c0 6)] := by
    have hsome : generateRecurrenceInstancesOpt freshId baseTask D wEnd =
        some [mkInstance baseTask (freshId 0) (addDays c0 0),
          mkInstance baseTask (freshId 1) (addDays c0 1),
          mkInstance baseTask (freshId 2) (addDays c0 2),
          mkInstance baseTask (freshId 3) (addDays c0 3),
          mkInstance baseTask (freshId 4) (addDays c0 4),
          mkInstance baseTask (freshId 5) (addDays c0 5),
          mkInstance baseTask (freshId 6) (addDays c0 6)] := by
      unfold generateRecurrenceInstancesOpt
      rw [hrule, ← hc0]
      refine genLoop_daily_run rfl rfl rfl 7 _ _ ?_ ?_ ?_ ?_ ?_
      · exact hc0ok
      · show toAbs D ≤ toAbs c0
        rw [habsD, habsc0]
        omega
      · intro k hk
        show toAbs c0 + k * 86400 ≤ toAbs wEnd ∧ toAbs c0 + k * 86400 ≤ toAbs wEnd
        rw [habsc0, habswE]
        constructor <;> omega
      · show min (toAbs wEnd) (toAbs wEnd) < toAbs c0 + 7 * 86400
        rw [habsc0, habswE]
        omega
      · show 7 + 1 ≤
          (min (toAbs wEnd) (toAbs wEnd) + 86400 - toAbs c0) / 86400 + 2
        rw [Nat.min_self]
        have h6 : 6 * 86400 ≤ toAbs wEnd + 86400 - toAbs c0 := by
          rw [habsc0, habswE]
          omega
        have h7 := (Nat.le_div_iff_mul_le (by omega : 0 < 86400)).2 h6
        omega
    unfold generateRecurrenceInstances
    rw [hsome]
    rfl
  have hr : List.range 7 = [0, 1, 2, 3, 4, 5, 6] := rfl
  have hmap : [mkInstance baseTask (freshId 0) (addDays c0 0),
      mkInstance baseTask (freshId 1) (addDays c0 1),
      mkInstance baseTask (freshId 2) (addDays c0 2),
      mkInstance baseTask (freshId 3) (addDays c0 3),
      mkInstance baseTask (freshId 4) (addDays c0 4),
      mkInstance baseTask (freshId 5) (addDays c0 5),
      mkInstance baseTask (freshId 6) (addDays c0 6)] =
      (List.range 7).map
        (fun k => mkInstance baseTask (freshId k) (addDays c0 k)) := by
    rw [hr]
    simp only [List.map_cons, List.map_nil]
  refine ⟨?_, ?_, ?_, ?_⟩
  · rw [hgen, hr]
    simp only [List.map_cons, List.map_nil, mkInstance_dateISO]
  · rw [hgen]
    rfl
  · rw [hgen, hmap, List.pairwise_map]
    refine List.Pairwise.imp ?_ (List.pairwise_lt_range 7)
    intro a b hab
    simp only [mkInstance_dateISO]
    rw [toAbs_addDays hc0v, toAbs_addDays hc0v]
    omega
  · intro inst hmem
    have hch : c0.hour = baseTask.dateISO.hour := by rw [hc0]
    have hcm : c0.minute = baseTask.dateISO.minute := by rw [hc0]
    rw [hgen, hmap] at hmem
    simp only [List.mem_map, List.mem_range] at hmem
    obtain ⟨k, hk, hke⟩ := hmem
    rw [← hke, mkInstance_dateISO, addDays_hour, addDays_minute, hch, hcm]
    exact ⟨rfl, rfl⟩

theorem claim_C5_daily_week_witness :
    (generateRecurrenceInstances supU
      (mkMaster (some ⟨.daily, 1, none, none, none, none⟩) (at9 1))
      (dMid 1) (dEnd 7)).length = 7 :=
  (@claim_C5_daily_week supU
    (mkMaster (some ⟨.daily, 1, none, none, none, none⟩) (at9 1))
    (dMid 1) (dEnd 7) (at9 1)
    rfl (by decide) rfl rfl rfl (by decide) (by decide) (by decide)
    (by decide)).2.1

/-- C2 — counterexample: a weekly rule with daysOfWeek = [1] (Monday),
interval 1 and count 3, expanded over a 10-week window that starts on a
Tuesday, returns 0 instances, not 3: the cursor advances in 7-day strides
from the window start and never lands on a Monday. -/
theorem claim_C2_counterexample :
    dayOfWeek (dMid 4) = 2 ∧
    (generateRecurrenceInstances supU
      (mkMaster (some ⟨.weekly, 1, some [1], none, none, some 3⟩) (at9 3))
      (dMid 4)
      { addDays (dMid 4) 69 with hour := 23, minute := 59, sec := 59 }).length
      = 0 := by
  constructor
  · decide
  · set_option maxRecDepth 8192 in decide

set_option maxHeartbeats 1600000 in
/-- C2 (amended) — for a weekly rule with daysOfWeek = [1], interval 1 and
count 3, expansion over a 10-week window returns exactly 3 instances at
exactly 7-day spacing provided the window starts on a Monday; the Monday
instances are the window-start day and the two following Mondays. -/
theorem claim_C2_amended {freshId : Nat → String} {baseTask : Task}
    {D wEnd c0 : DateTime}
    (hrule : baseTask.recurrence =
      some ⟨.weekly, 1, some [1], none, none, some 3⟩)
    (hD : D.Valid) (hDh : D.hour = 0) (hDm : D.minute = 0) (hDs : D.sec = 0)
    (hdow : dayOfWeek D = 1)
    (hbh : baseTask.dateISO.hour < 24) (hbm : baseTask.dateISO.minute < 60)
    (hwEnd : wEnd = { addDays D 69 with hour := 23, minute := 59, sec := 59 })
    (hc0 : c0 =
      { D with
          hour := baseTask.dateISO.hour
          minute := baseTask.dateISO.minute
          sec := 0 }) :
    (generateRecurrenceInstances freshId baseTask D wEnd).length = 3 ∧
    (generateRecurrenceInstances freshId baseTask D wEnd).map Task.dateISO =
      [addDays c0 0, addDays c0 7, addDays c0 14] ∧
    toAbs (addDays c0 7) = toAbs (addDays c0 0) + 604800 ∧
    toAbs (addDays c0 14) = toAbs (addDays c0 7) + 604800 := by
  have hc0ok : CursorOk baseTask.dateISO.hour baseTask.dateISO.minute c0 := by
    rw [hc0]
    exact cursor0_ok hD hbh hbm
  have hc0v := hc0ok.1
  have habsD : toAbs D = dayNumber D * 86400 := by
    unfold toAbs
    rw [hDh, hDm, hDs]
    omega
  have habsc0 : toAbs c0 =
      dayNumber D * 86400 + baseTask.dateISO.hour * 3600 +
        baseTask.dateISO.minute * 60 := by
    rw [hc0, toAbs_update]
    omega
  have habswE : toAbs wEnd = (dayNumber D + 69) * 86400 + 86399 := by
    have h1 : toAbs wEnd =
        dayNumber (addDays D 69) * 86400 + 23 * 3600 + 59 * 60 + 59 := by
      rw [hwEnd]
      exact toAbs_update (addDays D 69) 23 59 59
    have h2 := dayNumber_addDays hD 69
    omega
  have hinday : baseTask.dateISO.hour * 3600 + baseTask.dateISO.minute * 60 ≤
      86340 := by
    have h1 : baseTask.dateISO.hour * 3600 ≤ 23 * 3600 :=
      Nat.mul_le_mul_right _ (by omega)
    have h2 : baseTask.dateISO.minute * 60 ≤ 59 * 60 :=
      Nat.mul_le_mul_right _ (by omega)
    omega
  have hdowc0 : dayOfWeek c0 = 1 := by
    rw [hc0]
    show dayOfWeek { D with
      hour := baseTask.dateISO.hour
      minute := baseTask.dateISO.minute
      sec := 0 } = 1
    rw [show dayOfWeek { D with
        hour := baseTask.dateISO.hour
        minute := baseTask.dateISO.minute
        sec := 0 } = dayOfWeek D from rfl]
    exact hdow
  have hgen : generateRecurrenceInstances freshId baseTask D wEnd =
      [mkInstance baseTask (freshId 0) (addDays c0 0),
        mkInstance baseTask (freshId 1) (addDays c0 7),
        mkInstance baseTask (freshId 2) (addDays c0 14)] := by
    have hsome : generateRecurrenceInstancesOpt freshId baseTask D wEnd =
        some [mkInstance baseTask (freshId 0) (addDays c0 0),
          mkInstance baseTask (freshId 1) (addDays c0 7),
          mkInstance baseTask (freshId 2) (addDays c0 14)] := by
      unfold generateRecurrenceInstancesOpt
      rw [hrule, ← hc0]
      refine genLoop_weekly_count rfl rfl rfl rfl (by decide) 3 _ _
        ?_ ?_ ?_ ?_ ?_ ?_
      · exact hc0ok
      · show toAbs D ≤ toAbs c0
        rw [habsD, habsc0]
        omega
      · show List.contains [1] (dayOfWeek c0) = true
        rw [hdowc0]
        decide
      · show 0 + 3 = 3
        rfl
      · intro k hk
        show toAbs c0 + k * 604800 ≤ toAbs wEnd ∧
          toAbs c0 + k * 604800 ≤ toAbs wEnd
        rw [habsc0, habswE]
        constructor <;> omega
      · show 3 + 1 ≤
          (min (toAbs wEnd) (toAbs wEnd) + 86400 - toAbs c0) / 86400 + 2
        rw [Nat.min_self]
        have h6 : 2 * 86400 ≤ toAbs wEnd + 86400 - toAbs c0 := by
          rw [habsc0, habswE]
          omega
        have h7 := (Nat.le_div_iff_mul_le (by omega : 0 < 86400)).2 h6
        omega
    unfold generateRecurrenceInstances
    rw [hsome]
    rfl
  refine ⟨?_, ?_, ?_, ?_⟩
  · rw [hgen]
    rfl
  · rw [hgen]
    simp only [List.map_cons, List.map_nil, mkInstance_dateISO]
  · have e0 := toAbs_addDays hc0v 0
    have e7 := toAbs_addDays hc0v 7
    omega
  · have e7 := toAbs_addDays hc0v 7
    have e14 := toAbs_addDays hc0v 14
    omega

theorem claim_C2_amended_witness :
    (generateRecurrenceInstances supU
      (mkMaster (some ⟨.weekly, 1, some [1], none, none, some 3⟩) (at9 1))
      (dMid 3)
      { addDays (dMid 3) 69 with hour := 23, minute := 59, sec := 59 }).length
      = 3 :=
  (@claim_C2_amended supU
    (mkMaster (some ⟨.weekly, 1, some [1], none, none, some 3⟩) (at9 1))
    (dMid 3)
    { addDays (dMid 3) 69 with hour := 23, minute := 59, sec := 59 }
    (at9 3)
    rfl (by decide) rfl rfl rfl (by decide) (by decide) (by decide) rfl
    (by decide)).1

end VoiceTask
